import Mathlib

/-
Verification of the Holochain DHT coordinate engine (`kitsune_p2p/dht/src/coords.rs`)
and the scratch-buffered key-multivalue store (`holochain_sqlite/src/buffer/kvv/buf.rs`).

Machine integers (u32, u64) are modelled as `Nat` with explicit `% 2 ^ 32` /
`% 2 ^ 64` at the points where the source performs an `as u32` truncation or
where release-mode wrapping arithmetic applies.
-/

namespace Dht

/-- `Segment` from coords.rs: a node in an implicit binary tree over one axis.
The interval it denotes has length `2 ^ power` and its left edge is at
`offset * 2 ^ power` (per the doc comment on the source struct).  The phantom
coordinate-axis type parameter `C` of the source is erased here: it has no
computational content.  `power` and `offset` are `u32` values. -/
structure Segment where
  power : Nat
  offset : Nat
deriving Repr, DecidableEq

/-- `Segment::length`: `2u64.pow(self.power)`.  Computed in 64 bits in the
source precisely because power 32 overflows a u32. -/
def Segment.length (s : Segment) : Nat := 2 ^ s.power

/-- `Segment::bounds`: inclusive `(low, high)` bounds, computed in 64-bit
arithmetic and then truncated to `u32` by the `as u32` casts in the source. -/
def Segment.bounds (s : Segment) : Nat × Nat :=
  (s.offset * s.length % 2 ^ 32, (s.offset * s.length + s.length - 1) % 2 ^ 32)

/-- `Segment::halve`: a power-0 segment is a leaf and has no children;
otherwise the two children have power one less, at offsets `2 * offset` and
`2 * offset + 1` (u32 arithmetic, hence the `% 2 ^ 32`). -/
def Segment.halve (s : Segment) : Option (Segment × Segment) :=
  if s.power = 0 then
    none
  else
    some (⟨s.power - 1, s.offset * 2 % 2 ^ 32⟩,
          ⟨s.power - 1, (s.offset * 2 + 1) % 2 ^ 32⟩)

/-- `Coord::exp_wrapping` from coords.rs: `(**self as u64 * 2u64.pow(pow as u32)) as u32`.
`c` is the underlying `u32` value of the coordinate (space or time — the trait
method is identical for both axes) and `pow` the `u8` exponent.  The `u64`
multiplication and the `2u64.pow` are modelled with release-mode wrapping
(`% 2 ^ 64`), and the final `as u32` cast is `% 2 ^ 32`. -/
def exp_wrapping (c : Nat) (pow : Nat) : Nat :=
  c * (2 ^ pow % 2 ^ 64) % 2 ^ 64 % 2 ^ 32

/-- `Dimension` from coords.rs. -/
structure Dimension where
  quantum : Nat
  size : Nat
  bit_depth : Nat
deriving Repr, DecidableEq

/-- `Dimension::identity()`: quantum 1, size `u32::MAX`, bit depth 32. -/
def Dimension.identity : Dimension := ⟨1, 2 ^ 32 - 1, 32⟩

/-- `Topology::telescoping_times_helper` specialized to the identity time
dimension (`quantum = 1`), the only topology the source supports (its coordinate
conversions assert identity dimensions).  The guard `t < self.time.quantum` is
therefore `t < 1`.  The source computes `pow` as
`(t as f64 + 1.0).log2().floor() as u32 - 1`; for `t + 1 ≤ 2 ^ 32` the floor of
the base-2 logarithm is computed exactly, i.e. it equals `Nat.log2 (t + 1)`. -/
def telescoping_times_helper (t offset : Nat) : List Segment :=
  if _h : t < 1 then
    []
  else
    telescoping_times_helper (t - 2 ^ (Nat.log2 (t + 1) - 1))
        (offset + 2 ^ (Nat.log2 (t + 1) - 1))
      ++ [⟨Nat.log2 (t + 1) - 1, offset⟩]
termination_by t
decreasing_by
  have hp : 0 < 2 ^ (Nat.log2 (t + 1) - 1) := Nat.pos_pow_of_pos _ (by omega)
  omega

/-- `Topology::telescoping_times` (identity topology): run the helper from
offset 0 and reverse the accumulated list. -/
def telescoping_times (now : Nat) : List Segment :=
  (telescoping_times_helper now 0).reverse

/-- For `t ≥ 1`, the length `2 ^ (log2 (t + 1) - 1)` chosen by the helper never
exceeds the remaining span `t`, so the recursion's subtraction cannot underflow. -/
lemma two_pow_log2_pred_le (t : Nat) (ht : 1 ≤ t) :
    2 ^ (Nat.log2 (t + 1) - 1) ≤ t := by
  have h1 : 1 ≤ Nat.log2 (t + 1) := by
    rw [Nat.le_log2 (by omega)]
    omega
  have h2 : 2 ^ Nat.log2 (t + 1) ≤ t + 1 := Nat.log2_self_le (by omega)
  have h3 : (2 : Nat) ^ Nat.log2 (t + 1) = 2 * 2 ^ (Nat.log2 (t + 1) - 1) := by
    calc (2 : Nat) ^ Nat.log2 (t + 1)
        = 2 ^ (Nat.log2 (t + 1) - 1 + 1) := by rw [Nat.sub_add_cancel h1]
      _ = 2 * 2 ^ (Nat.log2 (t + 1) - 1) := pow_succ' 2 _
  have h4 : 0 < 2 ^ (Nat.log2 (t + 1) - 1) := Nat.pos_pow_of_pos _ (by omega)
  omega

/-- The segment lengths produced by the helper sum exactly to the span `t`. -/
lemma telescoping_times_helper_sum (t : Nat) :
    ∀ offset, ((telescoping_times_helper t offset).map Segment.length).sum = t := by
  induction t using Nat.strong_induction_on with
  | _ t ih =>
    intro offset
    rw [telescoping_times_helper]
    split
    · simp only [List.map_nil, List.sum_nil]
      omega
    · rename_i h
      have hle := two_pow_log2_pred_le t (by omega)
      have hpos : 0 < 2 ^ (Nat.log2 (t + 1) - 1) := Nat.pos_pow_of_pos _ (by omega)
      rw [List.map_append, List.sum_append]
      rw [ih _ (by omega)]
      simp only [List.map_cons, List.map_nil, List.sum_cons, List.sum_nil,
        Segment.length]
      omega

/-- The helper returns no segments for a zero remaining span. -/
lemma telescoping_times_helper_zero (offset : Nat) :
    telescoping_times_helper 0 offset = [] := by
  rw [telescoping_times_helper]
  rfl

/-- The first segment the helper accumulates (hence the most recent one after
the reversal in `telescoping_times`) always has power 0. -/
lemma telescoping_times_helper_head (t : Nat) :
    ∀ offset, 1 ≤ t → ∃ o rest,
      telescoping_times_helper t offset = Segment.mk 0 o :: rest := by
  induction t using Nat.strong_induction_on with
  | _ t ih =>
    intro offset ht
    rw [telescoping_times_helper]
    rw [dif_neg (by omega)]
    have hle := two_pow_log2_pred_le t ht
    have hpos : 0 < 2 ^ (Nat.log2 (t + 1) - 1) := Nat.pos_pow_of_pos _ (by omega)
    by_cases hz : t - 2 ^ (Nat.log2 (t + 1) - 1) = 0
    · -- the recursion bottoms out here, and the length 2 ^ pow must then be 1
      have h2 : 2 ^ Nat.log2 (t + 1) ≤ t + 1 := Nat.log2_self_le (by omega)
      have h1 : 1 ≤ Nat.log2 (t + 1) := by
        rw [Nat.le_log2 (by omega)]
        omega
      have h3 : (2 : Nat) ^ Nat.log2 (t + 1) = 2 * 2 ^ (Nat.log2 (t + 1) - 1) := by
        calc (2 : Nat) ^ Nat.log2 (t + 1)
            = 2 ^ (Nat.log2 (t + 1) - 1 + 1) := by rw [Nat.sub_add_cancel h1]
          _ = 2 * 2 ^ (Nat.log2 (t + 1) - 1) := pow_succ' 2 _
      have hpow : Nat.log2 (t + 1) - 1 = 0 := by
        by_contra hne
        have := Nat.one_lt_two_pow_iff.mpr hne
        omega
      rw [hz, telescoping_times_helper_zero]
      exact ⟨offset, [], by rw [hpow]; rfl⟩
    · obtain ⟨o, rest, heq⟩ :=
        ih (t - 2 ^ (Nat.log2 (t + 1) - 1)) (by omega)
          (offset + 2 ^ (Nat.log2 (t + 1) - 1)) (by omega)
      rw [heq]
      exact ⟨o, rest ++ [⟨Nat.log2 (t + 1) - 1, offset⟩], by simp⟩

/-- C5: on the identity topology, the lengths of the segments returned by
`telescoping_times now` sum exactly to `now`.  Proved for every natural `now`,
which in particular covers every `u32` value. -/
theorem c5_telescoping_lengths_sum (now : Nat) :
    ((telescoping_times now).map Segment.length).sum = now := by
  rw [telescoping_times, List.map_reverse, List.sum_reverse]
  exact telescoping_times_helper_sum now 0

/-- C6: on the identity topology, `telescoping_times 0` is empty, and for every
`now ≥ 1` the last returned segment has power 0. -/
theorem c6_telescoping_terminal_power (now : Nat) :
    telescoping_times 0 = [] ∧
    (1 ≤ now → ∃ s, (telescoping_times now).getLast? = some s ∧ s.power = 0) := by
  constructor
  · rw [telescoping_times, telescoping_times_helper]
    rfl
  · intro h
    obtain ⟨o, rest, heq⟩ := telescoping_times_helper_head now 0 h
    refine ⟨⟨0, o⟩, ?_, rfl⟩
    rw [telescoping_times, List.getLast?_reverse, heq]
    rfl

/-- Witness for C6 at the concrete input `now = 3`. -/
theorem c6_witness :
    telescoping_times 0 = [] ∧
    ∃ s, (telescoping_times 3).getLast? = some s ∧ s.power = 0 :=
  ⟨(c6_telescoping_terminal_power 3).1,
   (c6_telescoping_terminal_power 3).2 (by omega)⟩

/-- C7 fails on the code: at `now = 7` the helper returns the segments
`(power 2, offset 0)`, `(power 1, offset 4)`, `(power 0, offset 6)` — the
helper threads a raw coordinate as the `offset`, while `Segment::bounds`
interprets `offset` in units of `2 ^ power`.  Read through `bounds`, the
segments cover `[0,3]`, `[8,9]` and `[6,6]`: the second segment's low bound is
8, not the 4 required for a gapless tiling of `[0, 7)`. -/
theorem c7_bounds_tiling_fails_at_7 :
    telescoping_times 7 = [⟨2, 0⟩, ⟨1, 4⟩, ⟨0, 6⟩] ∧
    Segment.bounds ⟨2, 0⟩ = (0, 3) ∧
    Segment.bounds ⟨1, 4⟩ = (8, 9) ∧
    Segment.bounds ⟨0, 6⟩ = (6, 6) ∧
    (Segment.bounds ⟨2, 0⟩).2 + 1 ≠ (Segment.bounds ⟨1, 4⟩).1 := by
  refine ⟨?_, by decide, by decide, by decide, by decide⟩
  simp [telescoping_times, telescoping_times_helper, Nat.log2]

/-- C8: for a segment of positive power whose bounds fit in a u32 (no `as u32`
truncation), halving produces two children whose bounds exactly reconstruct the
parent's: child 1 starts where the parent starts, child 2 ends where the parent
ends, and child 2 starts right after child 1 ends. -/
theorem c8_halve_bounds_round_trip (s : Segment)
    (hp : 0 < s.power)
    (hrep : s.offset * 2 ^ s.power + 2 ^ s.power - 1 < 2 ^ 32) :
    ∃ c1 c2, s.halve = some (c1, c2) ∧
      (Segment.bounds c1).1 = (Segment.bounds s).1 ∧
      (Segment.bounds c2).2 = (Segment.bounds s).2 ∧
      (Segment.bounds c1).2 + 1 = (Segment.bounds c2).1 := by
  obtain ⟨p, o⟩ := s
  simp only at hp hrep
  have hq : 0 < 2 ^ (p - 1) := Nat.pos_pow_of_pos _ (by omega)
  have h2p : (2 : Nat) ^ p = 2 * 2 ^ (p - 1) := by
    calc (2 : Nat) ^ p
        = 2 ^ (p - 1 + 1) := by rw [Nat.sub_add_cancel (by omega : 1 ≤ p)]
      _ = 2 * 2 ^ (p - 1) := pow_succ' 2 _
  have h2ple : 2 ≤ (2 : Nat) ^ p := by omega
  have hA1 : o * 2 ^ p < 2 ^ 32 := by omega
  have h2o : o * 2 ≤ o * 2 ^ p := by
    calc o * 2 = o * 2 * 1 := by ring
    _ ≤ o * 2 * 2 ^ (p - 1) := Nat.mul_le_mul_left _ hq
    _ = o * 2 ^ p := by rw [h2p]; ring
  have h2o32 : o * 2 % 2 ^ 32 = o * 2 := Nat.mod_eq_of_lt (by omega)
  have h2o132 : (o * 2 + 1) % 2 ^ 32 = o * 2 + 1 := Nat.mod_eq_of_lt (by omega)
  have key1 : o * 2 * 2 ^ (p - 1) = o * 2 ^ p := by rw [h2p]; ring
  have key2 : (o * 2 + 1) * 2 ^ (p - 1) = o * 2 ^ p + 2 ^ (p - 1) := by
    rw [h2p]; ring
  refine ⟨⟨p - 1, o * 2 % 2 ^ 32⟩, ⟨p - 1, (o * 2 + 1) % 2 ^ 32⟩, ?_, ?_, ?_, ?_⟩
  · rw [Segment.halve]
    simp only
    rw [if_neg (by omega)]
  · simp only [Segment.bounds, Segment.length, h2o32]
    rw [key1]
  · simp only [Segment.bounds, Segment.length, h2o132]
    rw [key2]
    congr 1
    omega
  · simp only [Segment.bounds, Segment.length, h2o32, h2o132]
    rw [key1, key2]
    rw [Nat.mod_eq_of_lt (by omega), Nat.mod_eq_of_lt (by omega)]
    omega

/-- Witness for C8 at the concrete segment `(power 1, offset 1)`. -/
theorem c8_witness :
    ∃ c1 c2, (Segment.mk 1 1).halve = some (c1, c2) ∧
      (Segment.bounds c1).1 = (Segment.bounds ⟨1, 1⟩).1 ∧
      (Segment.bounds c2).2 = (Segment.bounds ⟨1, 1⟩).2 ∧
      (Segment.bounds c1).2 + 1 = (Segment.bounds c2).1 :=
  c8_halve_bounds_round_trip ⟨1, 1⟩ (by norm_num) (by norm_num)

/-- C9: for a u32 coordinate value `c` and a u8 exponent `pow`,
`exp_wrapping` returns `c * 2 ^ pow` reduced modulo `2 ^ 32` — the
intentional-wraparound result, with no failure path. -/
theorem c9_exp_wrapping_mod (c pow : Nat) (hc : c < 2 ^ 32) (hpow : pow < 2 ^ 8) :
    exp_wrapping c pow = c * 2 ^ pow % 2 ^ 32 := by
  rw [exp_wrapping]
  rw [Nat.mod_mod_of_dvd _ (by norm_num : (2 : ℕ) ^ 32 ∣ 2 ^ 64)]
  exact Nat.ModEq.mul_left c
    (Nat.mod_mod_of_dvd _ (by norm_num : (2 : ℕ) ^ 32 ∣ 2 ^ 64))

/-- Witness for C9 at the concrete input `c = 3`, `pow = 2`. -/
theorem c9_witness : exp_wrapping 3 2 = 3 * 2 ^ 2 % 2 ^ 32 :=
  c9_exp_wrapping_mod 3 2 (by norm_num) (by norm_num)

end Dht

namespace Kvv

/-
Embedding of `KvvBufUsed` (holochain_sqlite/src/buffer/kvv/buf.rs).

The generic key type `K : BufKey` and value type `V : BufMultiVal` (both totally
ordered and byte-serializable) are instantiated at `Nat`.  A `BTreeMap` is
modelled as an association list whose keys are strictly increasing (the
representation invariant `MapWF`); its `insert`, `get` and `contains_key` are
`mapInsert`, `mapLookup` and `mapContains`.  The backing `MultiTable` is the
external collaborator of spec section 6: a read (`get_multi`) returns, for a
key, a sequence of `(key, Option<rawvalue>)` row results and leaves the store
untouched; the write half is a caller-supplied transaction, modelled as the
journal of operations issued to it.  The serialization collaborator
(`holochain_serialized_bytes`) is instantiated with the injective encoding
`encode v = [v]` and its inverse `decode`.
-/

/-- `KvvOp` from buf.rs: the per-value delta tag. -/
inductive KvvOp
  | Insert
  | Delete
deriving Repr, DecidableEq

/-- `BTreeMap::insert` on a strictly-sorted association list: overwrite the
entry if the key is present, otherwise insert at the sorted position. -/
def mapInsert {β : Type} : List (Nat × β) → Nat → β → List (Nat × β)
  | [], k, v => [(k, v)]
  | (k1, v1) :: rest, k, v =>
    if k < k1 then (k, v) :: (k1, v1) :: rest
    else if k = k1 then (k, v) :: rest
    else (k1, v1) :: mapInsert rest k v

/-- `BTreeMap::get` on an association list. -/
def mapLookup {β : Type} : List (Nat × β) → Nat → Option β
  | [], _ => none
  | (k1, v1) :: rest, k => if k = k1 then some v1 else mapLookup rest k

/-- `BTreeMap::contains_key`. -/
def mapContains {β : Type} (m : List (Nat × β)) (k : Nat) : Bool :=
  (mapLookup m k).isSome

/-- The `BTreeMap` representation invariant: keys strictly increasing (hence
iteration order is ascending key order and keys are unique). -/
abbrev MapWF {β : Type} (m : List (Nat × β)) : Prop :=
  List.Pairwise (fun a b => a.1 < b.1) m

/-- `ValuesDelta` from buf.rs: the scratch record for one key. -/
structure ValuesDelta where
  delete_all : Bool
  deltas : List (Nat × KvvOp)
deriving Repr, DecidableEq

/-- `ValuesDelta::default()`: no delete-all, no deltas. -/
def ValuesDelta.empty : ValuesDelta := ⟨false, []⟩

/-- `ValuesDelta::all_deleted()`: delete-all set, empty delta map. -/
def ValuesDelta.all_deleted : ValuesDelta := ⟨true, []⟩

/-- `rusqlite::types::Value`: the raw stored value shape.  Only the blob
variant carries an encoded `V`; the others are the non-blob shapes. -/
inductive SqlValue
  | blob (bytes : List Nat)
  | integer (i : Int)
  | text (s : String)
  | null
deriving Repr, DecidableEq

/-- `DatabaseError`, restricted to the variants buf.rs can produce on this
path: a corrupt raw-value shape, a deserialization failure, and a backing-store
error. -/
inductive DatabaseError
  | InvalidValue
  | SerializedBytes
  | Store
deriving Repr, DecidableEq

/-- One row result yielded by `MultiTable::get_multi`. -/
abbrev Row := Except DatabaseError (Nat × Option SqlValue)

/-- The readable side of the backing multi-value table: for each key, the
sequence of row results `get_multi` yields for it. -/
abbrev Store := Nat → List Row

/-- `MultiTable::get_multi` through a reader: yields the rows for the key and
leaves the store untouched (it is a read — spec section 6). -/
def get_multi (store : Store) (k : Nat) : List Row × Store :=
  (store k, store)

/-- Serialization collaborator `holochain_serialized_bytes::encode`,
instantiated with an injective byte encoding of `Nat` values. -/
def encode (v : Nat) : List Nat := [v]

/-- Serialization collaborator `holochain_serialized_bytes::decode` (inverse of
`encode`); a failure is mapped into `DatabaseError` by the `map_err` in
`get_persisted`. -/
def decode : List Nat → Except DatabaseError Nat
  | [v] => Except.ok v
  | _ => Except.error DatabaseError.SerializedBytes

/-- The row handling of `KvvBufUsed::get_persisted` (buf.rs lines 158-170):
a blob is decoded; a present non-blob raw value is an `InvalidValue` error; an
absent raw value is skipped (`filter_map` yields `None`); a row error is passed
through. -/
def processRow : Row → Option (Except DatabaseError Nat)
  | Except.ok (_, some (SqlValue.blob buf)) => some (decode buf)
  | Except.ok (_, some _) => some (Except.error DatabaseError.InvalidValue)
  | Except.ok (_, none) => none
  | Except.error e => some (Except.error e)

/-- `KvvBufUsed` from buf.rs.  The `table: MultiTable` field is a handle onto
the backing store; here the store itself is passed to each call alongside the
reader/writer, so the structure keeps only the scratch. -/
structure KvvBufUsed where
  scratch : List (Nat × ValuesDelta)
deriving Repr, DecidableEq

/-- `KvvBufUsed::new`. -/
def KvvBufUsed.new : KvvBufUsed := ⟨[]⟩

/-- `KvvBufUsed::get_persisted`: fetch the rows for `k` and deserialize. -/
def KvvBufUsed.get_persisted (store : Store) (k : Nat) :
    List (Except DatabaseError Nat) × Store :=
  ((get_multi store k).1.filterMap processRow, (get_multi store k).2)

/-- `KvvBufUsed::get`: merge the scratch deltas for `k` with the persisted
values.  No scratch entry — return the persisted rows as-is.  A scratch entry
with `delete_all` — return only the Insert-marked scratch values, without
touching the store.  Otherwise — the Insert-marked scratch values chained with
the persisted values that have no delta entry (row errors pass through).  The
source binds the Insert-filtered scratch iterator once as
`from_scratch_space`; here it is written out in both branches. -/
def KvvBufUsed.get (b : KvvBufUsed) (store : Store) (k : Nat) :
    List (Except DatabaseError Nat) × Store :=
  match mapLookup b.scratch k with
  | none => KvvBufUsed.get_persisted store k
  | some vd =>
    if vd.delete_all then
      (vd.deltas.filterMap
        (fun p => if p.2 = KvvOp.Insert then some (Except.ok p.1) else none),
       store)
    else
      (vd.deltas.filterMap
        (fun p => if p.2 = KvvOp.Insert then some (Except.ok p.1) else none)
        ++ (KvvBufUsed.get_persisted store k).1.filter
            (fun r => match r with
              | Except.ok v => !(mapContains vd.deltas v)
              | Except.error _ => true),
       (KvvBufUsed.get_persisted store k).2)

/-- `KvvBufUsed::insert`: record an Insert delta for `(k, v)` in the scratch,
creating a default entry for `k` if none exists. -/
def KvvBufUsed.insert (b : KvvBufUsed) (k v : Nat) : KvvBufUsed :=
  let vd := (mapLookup b.scratch k).getD ValuesDelta.empty
  ⟨mapInsert b.scratch k { vd with deltas := mapInsert vd.deltas v KvvOp.Insert }⟩

/-- `KvvBufUsed::delete`: record a Delete delta for `(k, v)` in the scratch. -/
def KvvBufUsed.delete (b : KvvBufUsed) (k v : Nat) : KvvBufUsed :=
  let vd := (mapLookup b.scratch k).getD ValuesDelta.empty
  ⟨mapInsert b.scratch k { vd with deltas := mapInsert vd.deltas v KvvOp.Delete }⟩

/-- `KvvBufUsed::delete_all`: replace the whole scratch entry for `k` with
`ValuesDelta::all_deleted()`, discarding any per-value deltas. -/
def KvvBufUsed.delete_all (b : KvvBufUsed) (k : Nat) : KvvBufUsed :=
  ⟨mapInsert b.scratch k ValuesDelta.all_deleted⟩

/-- An operation issued to the caller-supplied write transaction. -/
inductive StoreOp
  | put (k : Nat) (v : SqlValue)
  | delete_kv (k : Nat) (v : SqlValue)
  | delete_all (k : Nat)
deriving Repr, DecidableEq

/-- The key an issued operation is about. -/
def StoreOp.key : StoreOp → Nat
  | StoreOp.put k _ => k
  | StoreOp.delete_kv k _ => k
  | StoreOp.delete_all k => k

/-- The write transaction, as the journal of operations issued to it. -/
abbrev Writer := List StoreOp

/-- `MultiTable::put` through the writer. -/
def tablePut (w : Writer) (k : Nat) (v : SqlValue) : Writer :=
  w ++ [StoreOp.put k v]

/-- `MultiTable::delete_kv` through the writer. -/
def tableDeleteKv (w : Writer) (k : Nat) (v : SqlValue) : Writer :=
  w ++ [StoreOp.delete_kv k v]

/-- `MultiTable::delete_all` through the writer. -/
def tableDeleteAll (w : Writer) (k : Nat) : Writer :=
  w ++ [StoreOp.delete_all k]

/-- `BufferedStore::is_clean` for `KvvBufUsed`: the scratch is empty. -/
def KvvBufUsed.is_clean (b : KvvBufUsed) : Bool :=
  b.scratch.isEmpty

/-- The body of the flush loop for one scratch entry `(k, vd)`: if
`delete_all`, first issue a store-level delete-all for `k`; then walk the
deltas — an Insert puts the encoded value, a Delete deletes the encoded value
unless `delete_all` already made that redundant. -/
def flushEntry (w : Writer) (k : Nat) (vd : ValuesDelta) : Writer :=
  let w1 := if vd.delete_all then tableDeleteAll w k else w
  vd.deltas.foldl
    (fun w2 p =>
      match p.2 with
      | KvvOp.Insert => tablePut w2 k (SqlValue.blob (encode p.1))
      | KvvOp.Delete =>
        if vd.delete_all then w2 else tableDeleteKv w2 k (SqlValue.blob (encode p.1)))
    w1

/-- `BufferedStore::flush_to_txn_ref` for `KvvBufUsed`: a no-op on a clean
buffer, otherwise the flush loop over the scratch entries in ascending key
order.  The scratch itself is only read (`self.scratch.iter()`), never reset,
so the buffer comes back unchanged.  With the total `encode` of this model the
serialization failure path is dead, so the `DatabaseResult` is always `Ok`. -/
def KvvBufUsed.flush_to_txn_ref (b : KvvBufUsed) (w : Writer) : KvvBufUsed × Writer :=
  if b.is_clean then
    (b, w)
  else
    (b, b.scratch.foldl (fun w1 p => flushEntry w1 p.1 p.2) w)

/-- The operations the flush contract of the spec prescribes for one scratch
entry.  This definition follows the spec's words (spec section 4.4, flush
contract), to be compared with the code-derived `flush_to_txn_ref`. -/
def entryOpsSpec (p : Nat × ValuesDelta) : List StoreOp :=
  (if p.2.delete_all then [StoreOp.delete_all p.1] else []) ++
  p.2.deltas.filterMap
    (fun q =>
      match q.2 with
      | KvvOp.Insert => some (StoreOp.put p.1 (SqlValue.blob (encode q.1)))
      | KvvOp.Delete =>
        if p.2.delete_all then none
        else some (StoreOp.delete_kv p.1 (SqlValue.blob (encode q.1))))

/-- The whole operation sequence the flush contract of the spec prescribes:
the per-entry operations, key by key in scratch order. -/
def flushOpsSpec (scratch : List (Nat × ValuesDelta)) : List StoreOp :=
  (scratch.map entryOpsSpec).flatten

/-- Looking up the key just inserted finds the just-inserted value. -/
lemma mapLookup_mapInsert_self {β : Type} (m : List (Nat × β)) (k : Nat) (v : β) :
    mapLookup (mapInsert m k v) k = some v := by
  induction m with
  | nil => simp [mapInsert, mapLookup]
  | cons a rest ih =>
    obtain ⟨k1, v1⟩ := a
    by_cases h1 : k < k1
    · simp [mapInsert, h1, mapLookup]
    · by_cases h2 : k = k1
      · simp [mapInsert, h1, h2, mapLookup]
      · simp [mapInsert, h1, h2, mapLookup, ih]

/-- On a well-formed map, a successful lookup is exactly membership of the
pair. -/
lemma mapLookup_eq_some_iff {β : Type} {m : List (Nat × β)} (hm : MapWF m)
    (k : Nat) (v : β) : mapLookup m k = some v ↔ (k, v) ∈ m := by
  induction m with
  | nil => simp [mapLookup]
  | cons a rest ih =>
    obtain ⟨k1, v1⟩ := a
    rw [MapWF, List.pairwise_cons] at hm
    by_cases h : k = k1
    · subst h
      have hlk : mapLookup ((k, v1) :: rest) k = some v1 := by
        simp [mapLookup]
      rw [hlk]
      constructor
      · intro h1
        injection h1 with h1
        subst h1
        exact List.mem_cons_self _ _
      · intro h1
        rcases List.mem_cons.mp h1 with h2 | h2
        · rw [Prod.mk.injEq] at h2
          rw [h2.2]
        · exact absurd (hm.1 _ h2) (lt_irrefl k)
    · simp only [mapLookup, if_neg h]
      rw [ih hm.2]
      constructor
      · intro h1
        exact List.mem_cons_of_mem _ h1
      · intro h1
        rcases List.mem_cons.mp h1 with h2 | h2
        · rw [Prod.mk.injEq] at h2
          exact absurd h2.1 h
        · exact h2

/-- `!contains_key` is exactly a `None` lookup. -/
lemma not_mapContains_iff {β : Type} (m : List (Nat × β)) (k : Nat) :
    (!mapContains m k) = true ↔ mapLookup m k = none := by
  rw [mapContains]
  cases mapLookup m k <;> simp

/-- Membership in the `from_scratch_space` iterator of `get`: exactly the
values whose delta is Insert (on a well-formed delta map). -/
lemma mem_from_scratch_iff {deltas : List (Nat × KvvOp)} (hwf : MapWF deltas)
    (v : Nat) :
    (Except.ok v : Except DatabaseError Nat) ∈ deltas.filterMap
        (fun p => if p.2 = KvvOp.Insert then some (Except.ok p.1) else none) ↔
      mapLookup deltas v = some KvvOp.Insert := by
  rw [List.mem_filterMap, mapLookup_eq_some_iff hwf]
  constructor
  · rintro ⟨⟨a, op⟩, hmem, heq⟩
    by_cases hop : op = KvvOp.Insert
    · subst hop
      simp at heq
      subst heq
      exact hmem
    · simp [hop] at heq
  · intro hmem
    exact ⟨(v, KvvOp.Insert), hmem, by simp⟩

/-- Unrolling the inner delta loop of the flush: it appends, to whatever the
writer journal held, exactly the per-delta operations. -/
lemma foldl_deltas_eq (k : Nat) (da : Bool) (l : List (Nat × KvvOp)) :
    ∀ w : Writer,
      l.foldl
        (fun w2 p =>
          match p.2 with
          | KvvOp.Insert => tablePut w2 k (SqlValue.blob (encode p.1))
          | KvvOp.Delete =>
            if da then w2 else tableDeleteKv w2 k (SqlValue.blob (encode p.1)))
        w
      = w ++ l.filterMap
          (fun q =>
            match q.2 with
            | KvvOp.Insert => some (StoreOp.put k (SqlValue.blob (encode q.1)))
            | KvvOp.Delete =>
              if da then none
              else some (StoreOp.delete_kv k (SqlValue.blob (encode q.1)))) := by
  induction l with
  | nil =>
    intro w
    simp
  | cons p rest ih =>
    intro w
    obtain ⟨v, op⟩ := p
    cases op
    · rw [List.foldl_cons, ih, List.filterMap_cons]
      simp [tablePut]
    · cases da
      · rw [List.foldl_cons, ih, List.filterMap_cons]
        simp [tableDeleteKv]
      · rw [List.foldl_cons, ih, List.filterMap_cons]
        simp

/-- The flush loop body for one entry appends exactly the spec's per-entry
operations. -/
lemma flushEntry_eq (w : Writer) (k : Nat) (vd : ValuesDelta) :
    flushEntry w k vd = w ++ entryOpsSpec (k, vd) := by
  rw [flushEntry, entryOpsSpec]
  rw [foldl_deltas_eq]
  cases hda : vd.delete_all <;> simp [tableDeleteAll, hda]

/-- The flush loop over the whole scratch appends exactly the spec's operation
sequence. -/
lemma foldl_scratch_eq (l : List (Nat × ValuesDelta)) :
    ∀ w : Writer,
      l.foldl (fun w1 p => flushEntry w1 p.1 p.2) w = w ++ flushOpsSpec l := by
  induction l with
  | nil =>
    intro w
    simp [flushOpsSpec]
  | cons p rest ih =>
    intro w
    simp only [List.foldl_cons]
    rw [flushEntry_eq, ih]
    simp [flushOpsSpec]

/-- `flush_to_txn_ref` returns the buffer unchanged and appends exactly the
spec's operation sequence to the write transaction. -/
lemma flush_to_txn_ref_eq (b : KvvBufUsed) (w : Writer) :
    b.flush_to_txn_ref w = (b, w ++ flushOpsSpec b.scratch) := by
  rw [KvvBufUsed.flush_to_txn_ref]
  by_cases h : b.is_clean = true
  · rw [if_pos h]
    rw [KvvBufUsed.is_clean, List.isEmpty_iff] at h
    simp [h, flushOpsSpec]
  · rw [if_neg h]
    rw [foldl_scratch_eq]

/-- Every operation the spec prescribes for one scratch entry is about that
entry's key. -/
lemma entryOpsSpec_key (p : Nat × ValuesDelta) :
    ∀ op ∈ entryOpsSpec p, op.key = p.1 := by
  intro op hop
  rw [entryOpsSpec] at hop
  rcases List.mem_append.mp hop with h | h
  · cases hda : p.2.delete_all
    · rw [hda] at h
      simp at h
    · rw [hda] at h
      simp at h
      subst h
      rfl
  · obtain ⟨q, _, he⟩ := List.mem_filterMap.mp h
    rcases q with ⟨v, op1⟩
    cases op1
    · simp only [Option.some.injEq] at he
      subst he
      rfl
    · cases hda : p.2.delete_all
      · rw [hda] at he
        simp only [if_neg Bool.false_ne_true, Option.some.injEq] at he
        subst he
        rfl
      · rw [hda] at he
        simp at he

/-- On a well-formed scratch, the keys of the spec's flush operation sequence
are non-decreasing: the flush proceeds in ascending key order. -/
lemma flushOpsSpec_keys_sorted {scratch : List (Nat × ValuesDelta)}
    (h : MapWF scratch) :
    List.Pairwise (fun x y => x ≤ y) ((flushOpsSpec scratch).map StoreOp.key) := by
  rw [flushOpsSpec, List.pairwise_map, List.pairwise_flatten]
  constructor
  · intro l hl
    obtain ⟨p, _, hpe⟩ := List.mem_map.mp hl
    subst hpe
    apply List.pairwise_of_forall_mem_list
    intro x hx y hy
    rw [entryOpsSpec_key p x hx, entryOpsSpec_key p y hy]
  · rw [List.pairwise_map]
    refine List.Pairwise.imp ?_ h
    intro p1 p2 hlt x hx y hy
    rw [entryOpsSpec_key p1 x hx, entryOpsSpec_key p2 y hy]
    exact le_of_lt hlt

/-- C1: for a key whose scratch entry has `delete_all = false`, `get` returns
exactly the union of the Insert-marked delta values and the persisted values
with no delta entry (Delete-marked values excluded), and the backing store is
not mutated by the read.  `ps` is the list of (cleanly decoded) persisted
values for `k`. -/
theorem c1_get_merges_partial_delta (b : KvvBufUsed) (store : Store) (k : Nat)
    (vd : ValuesDelta) (ps : List Nat)
    (hvd : mapLookup b.scratch k = some vd)
    (hda : vd.delete_all = false)
    (hwf : MapWF vd.deltas)
    (hps : (store k).filterMap processRow = ps.map Except.ok) :
    (b.get store k).2 = store ∧
    ∀ v : Nat, Except.ok v ∈ (b.get store k).1 ↔
      (mapLookup vd.deltas v = some KvvOp.Insert ∨
        (v ∈ ps ∧ mapLookup vd.deltas v = none)) := by
  have hget : b.get store k =
      (vd.deltas.filterMap
          (fun p => if p.2 = KvvOp.Insert then some (Except.ok p.1) else none)
        ++ (ps.map Except.ok).filter
            (fun r => match r with
              | Except.ok v => !(mapContains vd.deltas v)
              | Except.error _ => true),
       store) := by
    simp only [KvvBufUsed.get, hvd, hda, Bool.false_eq_true, if_false,
      KvvBufUsed.get_persisted, get_multi, hps]
  rw [hget]
  refine ⟨rfl, ?_⟩
  intro v
  have hfil : (Except.ok v : Except DatabaseError Nat) ∈ (ps.map Except.ok).filter
      (fun r => match r with
        | Except.ok v1 => !(mapContains vd.deltas v1)
        | Except.error _ => true) ↔ (v ∈ ps ∧ mapLookup vd.deltas v = none) := by
    rw [List.mem_filter]
    constructor
    · rintro ⟨hmem, hpred⟩
      obtain ⟨v1, hv1, he⟩ := List.mem_map.mp hmem
      injection he with he
      subst he
      refine ⟨hv1, ?_⟩
      rw [← not_mapContains_iff]
      exact hpred
    · rintro ⟨hv, hl⟩
      refine ⟨List.mem_map_of_mem _ hv, ?_⟩
      show (!mapContains vd.deltas v) = true
      rw [not_mapContains_iff]
      exact hl
  rw [List.mem_append]
  exact or_congr (mem_from_scratch_iff hwf v) hfil

/-- Concrete scratch entry for the C1 witness: value 2 is Delete-marked, value
3 is Insert-marked. -/
def vdW1 : ValuesDelta := ⟨false, [(2, KvvOp.Delete), (3, KvvOp.Insert)]⟩

/-- Concrete buffer for the C1 witness. -/
def bW1 : KvvBufUsed := ⟨[(1, vdW1)]⟩

/-- Concrete backing store for the C1 and C2 witnesses: key 1 holds two
persisted blobs decoding to the values 2 and 5. -/
def storeW : Store := fun j =>
  if j = 1 then
    [Except.ok (1, some (SqlValue.blob [2])), Except.ok (1, some (SqlValue.blob [5]))]
  else
    []

/-- Witness for C1 at the buffer `bW1`, store `storeW`, key 1, value 5. -/
theorem c1_witness :
    (bW1.get storeW 1).2 = storeW ∧
    ((Except.ok 5 : Except DatabaseError Nat) ∈ (bW1.get storeW 1).1 ↔
      (mapLookup vdW1.deltas 5 = some KvvOp.Insert ∨
        (5 ∈ [2, 5] ∧ mapLookup vdW1.deltas 5 = none))) :=
  ⟨(c1_get_merges_partial_delta bW1 storeW 1 vdW1 [2, 5] rfl rfl (by decide) rfl).1,
   (c1_get_merges_partial_delta bW1 storeW 1 vdW1 [2, 5] rfl rfl (by decide) rfl).2 5⟩

/-- C2: `delete_all(k)` installs `ValuesDelta::all_deleted()` for `k`
(discarding prior per-value deltas), and for a key whose scratch entry has
`delete_all = true`, `get` returns exactly the Insert-marked delta values —
the persisted values are suppressed with no flush having happened: the result
is computed without consulting the store, for any store contents. -/
theorem c2_get_after_delete_all (b : KvvBufUsed) (store : Store) (k : Nat)
    (vd : ValuesDelta)
    (hvd : mapLookup b.scratch k = some vd)
    (hda : vd.delete_all = true)
    (hwf : MapWF vd.deltas) :
    mapLookup (b.delete_all k).scratch k = some ValuesDelta.all_deleted ∧
    b.get store k =
      (vd.deltas.filterMap
        (fun p => if p.2 = KvvOp.Insert then some (Except.ok p.1) else none),
       store) ∧
    ∀ v : Nat, Except.ok v ∈ (b.get store k).1 ↔
      mapLookup vd.deltas v = some KvvOp.Insert := by
  have hget : b.get store k =
      (vd.deltas.filterMap
        (fun p => if p.2 = KvvOp.Insert then some (Except.ok p.1) else none),
       store) := by
    simp only [KvvBufUsed.get, hvd, hda, if_true]
  refine ⟨?_, hget, ?_⟩
  · rw [KvvBufUsed.delete_all]
    exact mapLookup_mapInsert_self _ _ _
  · intro v
    rw [hget]
    exact mem_from_scratch_iff hwf v

/-- Concrete scratch entry for the C2 witness: delete-all set, then value 3
Insert-marked and value 4 Delete-marked. -/
def vdW2 : ValuesDelta := ⟨true, [(3, KvvOp.Insert), (4, KvvOp.Delete)]⟩

/-- Concrete buffer for the C2 witness. -/
def bW2 : KvvBufUsed := ⟨[(1, vdW2)]⟩

/-- Witness for C2 at the buffer `bW2` over the store `storeW`, which holds
persisted values 2 and 5 for key 1: the read returns only the Insert value 3. -/
theorem c2_witness :
    mapLookup ((bW2.delete_all 1).scratch) 1 = some ValuesDelta.all_deleted ∧
    bW2.get storeW 1 = ([Except.ok 3], storeW) ∧
    ((Except.ok 3 : Except DatabaseError Nat) ∈ (bW2.get storeW 1).1 ↔
      mapLookup vdW2.deltas 3 = some KvvOp.Insert) :=
  ⟨(c2_get_after_delete_all bW2 storeW 1 vdW2 rfl rfl (by decide)).1,
   (c2_get_after_delete_all bW2 storeW 1 vdW2 rfl rfl (by decide)).2.1,
   (c2_get_after_delete_all bW2 storeW 1 vdW2 rfl rfl (by decide)).2.2 3⟩

/-- C3: flushing a clean buffer issues no store operation and succeeds;
otherwise the operations issued to the write transaction are, for each scratch
entry in ascending key order, the delete-all first when the flag is set, then
per delta a put of the encoded value for Insert and a delete of the encoded
value for Delete — the latter skipped under delete-all. -/
theorem c3_flush_contract (b : KvvBufUsed) (w : Writer) :
    (b.scratch = [] → b.flush_to_txn_ref w = (b, w)) ∧
    (b.flush_to_txn_ref w).2 = w ++ flushOpsSpec b.scratch ∧
    (MapWF b.scratch →
      List.Pairwise (fun x y => x ≤ y) ((flushOpsSpec b.scratch).map StoreOp.key)) := by
  refine ⟨?_, ?_, fun h => flushOpsSpec_keys_sorted h⟩
  · intro h
    rw [flush_to_txn_ref_eq, h]
    simp [flushOpsSpec]
  · rw [flush_to_txn_ref_eq]

/-- Concrete buffer for the C3 witness: a delete-all entry with a pending
Insert and a pending (skipped) Delete at key 1, and a plain entry with a
Delete and an Insert at key 2. -/
def bW3 : KvvBufUsed := ⟨[(1, vdW2), (2, vdW1)]⟩

/-- Witness for C3: an empty flush on a fresh buffer, and the issued operation
sequence on `bW3`. -/
theorem c3_witness :
    KvvBufUsed.new.flush_to_txn_ref [] = (KvvBufUsed.new, []) ∧
    (bW3.flush_to_txn_ref []).2 = [] ++ flushOpsSpec bW3.scratch ∧
    List.Pairwise (fun x y => x ≤ y) ((flushOpsSpec bW3.scratch).map StoreOp.key) :=
  ⟨(c3_flush_contract KvvBufUsed.new []).1 rfl,
   (c3_flush_contract bW3 []).2.1,
   (c3_flush_contract bW3 []).2.2 (by decide)⟩

/-- C4: a successful flush leaves the scratch untouched (no key or delta is
removed or reset), so flushing again without an intervening clear issues the
very same operation sequence against the store a second time. -/
theorem c4_flush_keeps_scratch (b : KvvBufUsed) (w : Writer) :
    ((b.flush_to_txn_ref w).1).scratch = b.scratch ∧
    ∃ t, (b.flush_to_txn_ref w).2 = w ++ t ∧
      (((b.flush_to_txn_ref w).1).flush_to_txn_ref ((b.flush_to_txn_ref w).2)).2
        = w ++ t ++ t := by
  rw [flush_to_txn_ref_eq]
  refine ⟨rfl, flushOpsSpec b.scratch, rfl, ?_⟩
  rw [flush_to_txn_ref_eq]

/-- C10: on the persisted read path, a row whose raw value is absent (`None`)
is silently skipped — it contributes neither a value nor an error — while a
row whose raw value is present but not a blob contributes an `InvalidValue`
error entry.  The last two conjuncts surface this through `get`: with no
scratch entry the result is exactly the processed rows, and with a
`delete_all = false` scratch entry an `InvalidValue` row error still reaches
the result (the merge filter keeps row errors). -/
theorem c10_persisted_row_handling (b : KvvBufUsed) (store : Store) (k j : Nat)
    (pre post : List Row) (sv : SqlValue) (vd : ValuesDelta)
    (hnb : ∀ bs, sv ≠ SqlValue.blob bs) :
    ((pre ++ Except.ok (j, none) :: post).filterMap processRow
        = (pre ++ post).filterMap processRow) ∧
    ((pre ++ Except.ok (j, some sv) :: post).filterMap processRow
        = pre.filterMap processRow
            ++ Except.error DatabaseError.InvalidValue :: post.filterMap processRow) ∧
    (mapLookup b.scratch k = none →
      b.get store k = ((store k).filterMap processRow, store)) ∧
    (mapLookup b.scratch k = some vd → vd.delete_all = false →
      Except.error DatabaseError.InvalidValue ∈ (store k).filterMap processRow →
      Except.error DatabaseError.InvalidValue ∈ (b.get store k).1) := by
  have hrow : processRow (Except.ok (j, some sv))
      = some (Except.error DatabaseError.InvalidValue) := by
    cases sv with
    | blob bs => exact absurd rfl (hnb bs)
    | integer i => rfl
    | text s => rfl
    | null => rfl
  refine ⟨?_, ?_, ?_, ?_⟩
  · simp [List.filterMap_append, List.filterMap_cons, processRow]
  · simp [List.filterMap_append, List.filterMap_cons, hrow]
  · intro h
    simp only [KvvBufUsed.get, h, KvvBufUsed.get_persisted, get_multi]
  · intro h1 h2 h3
    simp only [KvvBufUsed.get, h1, h2, Bool.false_eq_true, if_false,
      KvvBufUsed.get_persisted, get_multi]
    rw [List.mem_append]
    right
    rw [List.mem_filter]
    exact ⟨h3, rfl⟩

/-- Concrete buffer for the C10 witness: key 1 has a scratch entry with
`delete_all = false` and no per-value deltas. -/
def bW10 : KvvBufUsed := ⟨[(1, ValuesDelta.empty)]⟩

/-- Concrete backing store for the C10 witness: key 1 holds one row whose raw
value is present but is a text, not a blob. -/
def storeW10 : Store := fun j =>
  if j = 1 then [Except.ok (1, some (SqlValue.text "x"))] else []

/-- Witness for C10: the row-handling equations at singleton rows, the
no-scratch path on key 2 (absent from the scratch), and the surfaced
`InvalidValue` on key 1 through the `delete_all = false` path. -/
theorem c10_witness :
    (([] ++ Except.ok (9, (none : Option SqlValue)) :: []).filterMap processRow
        = (([] : List Row) ++ []).filterMap processRow) ∧
    (([] ++ Except.ok (9, some (SqlValue.integer 5)) :: []).filterMap processRow
        = ([] : List Row).filterMap processRow
            ++ Except.error DatabaseError.InvalidValue :: ([] : List Row).filterMap processRow) ∧
    KvvBufUsed.new.get storeW10 2 = ((storeW10 2).filterMap processRow, storeW10) ∧
    Except.error DatabaseError.InvalidValue ∈ (bW10.get storeW10 1).1 :=
  ⟨(c10_persisted_row_handling KvvBufUsed.new storeW10 2 9 [] [] (SqlValue.integer 5)
      ValuesDelta.empty (fun bs h => SqlValue.noConfusion h)).1,
   (c10_persisted_row_handling KvvBufUsed.new storeW10 2 9 [] [] (SqlValue.integer 5)
      ValuesDelta.empty (fun bs h => SqlValue.noConfusion h)).2.1,
   (c10_persisted_row_handling KvvBufUsed.new storeW10 2 9 [] [] (SqlValue.integer 5)
      ValuesDelta.empty (fun bs h => SqlValue.noConfusion h)).2.2.1 rfl,
   (c10_persisted_row_handling bW10 storeW10 1 9 [] [] (SqlValue.integer 5)
      ValuesDelta.empty (fun bs h => SqlValue.noConfusion h)).2.2.2 rfl rfl
     (by simp [storeW10, processRow])⟩

end Kvv
